import Mathlib

set_option maxHeartbeats 1000000

namespace Spec2Proof

/-! Shallow embedding of the token-stream translation and accumulation
pipeline of the chat-agent backend: the chunk classifier
(`tokenGenerator`), the SSE route (`GET` of the stream endpoint), the
client-side SSE frame parsing loop (`handleStreamResponse` of
`useChatThread.ts`) and the two message accumulators
(`processStreamChunk` of the hook, `processChunksToMessages` of the
property tests). -/

/-- A tool invocation request carried by `tool_call` chunks.  Mirrors the
TypeScript `ToolCall` record with fields `name`, `args`, `id`; `args` is
kept as its opaque JSON serialization and the constant `type: "tool_call"`
tag is dropped. -/
structure ToolCall where
  name : String
  args : String
  id : String
deriving DecidableEq, Repr

/-- Result of an executed tool, carried by `tool_result` chunks. -/
structure ToolResult where
  name : String
  content : String
deriving DecidableEq, Repr

/-- The wire unit of the streaming protocol (TypeScript `StreamChunk`):
a tagged union with one optional payload field per kind.  The optional
fields model the TypeScript optional (`?:`) fields, which may be absent
on a decoded chunk. -/
inductive StreamChunk where
  | token (content : Option String) (messageId : Option String)
  | tool_call (toolCall : Option ToolCall) (messageId : Option String)
  | tool_result (toolResult : Option ToolResult) (messageId : Option String)
  | done
  | error (error : Option String)
deriving DecidableEq, Repr

/-- Client-side conversation message (TypeScript `MessageResponse`), with
the `type` tag and the kind-specific `data` payload merged into one
constructor per kind.  `ai` keeps the optional `tool_calls` list (absent
until the first tool call is attached), `tool` carries
`id, content, name, status, tool_call_id`. -/
inductive MessageResponse where
  | human (id : String) (content : String)
  | ai (id : String) (content : String) (tool_calls : Option (List ToolCall))
  | tool (id : String) (content : String) (name : String) (status : String)
      (tool_call_id : String)
  | err (id : String) (content : String)
deriving DecidableEq, Repr

/-- JavaScript `x || d` on a nullable string: `null`/absent and the empty
string are falsy and select the default. -/
def jsOr (o : Option String) (d : String) : String :=
  match o with
  | some s => if s = "" then d else s
  | none => d

/-- Truthiness of a nullable string (`null` and `""` are falsy). -/
def optTruthy (o : Option String) : Bool :=
  match o with
  | some s => decide (s ≠ "")
  | none => false

/-- JavaScript `x || prefixText + Date.now()`: the clock is modeled by a
generator `gen` applied to a call counter, which advances exactly when the
fallback fires (short-circuit evaluation of `||`). -/
def jsOrGen (o : Option String) (pre : String) (gen : Nat → String) (ctr : Nat) :
    String × Nat :=
  match o with
  | some s => if s = "" then (pre ++ gen ctr, ctr + 1) else (s, ctr)
  | none => (pre ++ gen ctr, ctr + 1)

/-- Accumulator state: the `currentMessageId` and `accumulatedContent`
refs, the message list (the React Query cache entry for the thread), and
the clock counter feeding generated ids. -/
structure AccState where
  currentMessageId : Option String
  accumulatedContent : String
  messages : List MessageResponse
  ctr : Nat
deriving DecidableEq, Repr

/-- Is `m` an `ai` message with id `mid`?  This is the `findIndex`
predicate `m.type === "ai" && m.data.id === currentMessageId`. -/
def isAiWithId (mid : String) (m : MessageResponse) : Bool :=
  match m with
  | .ai i _ _ => decide (i = mid)
  | _ => false

/-- Models the `findIndex` + clone + targeted `set` pattern of both
accumulators: rewrite the first `ai` message carrying `mid`, and leave the
list unchanged when none is found (`idx === -1` returns the old list). -/
def updateFirstAi (mid : String) (f : MessageResponse → MessageResponse) :
    List MessageResponse → List MessageResponse
  | [] => []
  | m :: ms => if isAiWithId mid m then f m :: ms else m :: updateFirstAi mid f ms

/-- Token-update rewrite: replace the located `ai` message's content with
the accumulated text (the object spread keeps id and tool calls). -/
def setAiContent (acc : String) (m : MessageResponse) : MessageResponse :=
  match m with
  | .ai i _ tcs => .ai i acc tcs
  | m => m

/-- The `useChatThread` `tool_call` update: append the call to the located
message's `tool_calls` unless an entry with the same id is already present
(the `toolCallExists` guard returns the old list). -/
def addToolCallDedup (tc : ToolCall) (m : MessageResponse) : MessageResponse :=
  match m with
  | .ai i c tcs =>
    let ex := tcs.getD []
    if ex.any (fun t => t.id == tc.id) then .ai i c tcs
    else .ai i c (some (ex ++ [tc]))
  | m => m

/-- The property-test accumulator's `tool_call` update: append
unconditionally (no duplicate-id guard in `processChunksToMessages`). -/
def addToolCallPlain (tc : ToolCall) (m : MessageResponse) : MessageResponse :=
  match m with
  | .ai i c tcs => .ai i c (some (tcs.getD [] ++ [tc]))
  | m => m

/-- One step of `processStreamChunk` from `useChatThread.ts`, as a pure
transition on the accumulator state (the React Query cache writes become
the `messages` field). -/
def processStreamChunk (gen : Nat → String) (s : AccState) (chunk : StreamChunk) :
    AccState :=
  match chunk with
  | .token content messageId =>
    let acc := s.accumulatedContent ++ content.getD ""
    let r := jsOrGen messageId "ai-" gen s.ctr
    if optTruthy s.currentMessageId then
      ⟨s.currentMessageId, acc,
        updateFirstAi (s.currentMessageId.getD "") (setAiContent acc) s.messages, r.2⟩
    else
      ⟨some r.1, acc, s.messages ++ [.ai r.1 acc none], r.2⟩
  | .tool_call toolCall _ =>
    match toolCall with
    | some tc =>
      if optTruthy s.currentMessageId then
        ⟨s.currentMessageId, s.accumulatedContent,
          updateFirstAi (s.currentMessageId.getD "") (addToolCallDedup tc) s.messages,
          s.ctr⟩
      else s
    | none => s
  | .tool_result toolResult messageId =>
    match toolResult with
    | some tr =>
      let r := jsOrGen messageId "tool-" gen s.ctr
      ⟨none, "",
        s.messages ++ [.tool r.1 tr.content tr.name "success" (jsOr messageId "")], r.2⟩
    | none => s
  | .done => ⟨none, "", s.messages, s.ctr⟩
  | .error e =>
    ⟨none, "",
      s.messages ++ [.err ("err-" ++ gen s.ctr) ("⚠️ " ++ jsOr e "An error occurred")],
      s.ctr + 1⟩

/-- One iteration of the `for` loop of the property-test transition
function `processChunksToMessages`: identical to the hook's step except
that the `tool_call` case appends without the duplicate-id guard. -/
def chunksToMessagesStep (gen : Nat → String) (s : AccState) (chunk : StreamChunk) :
    AccState :=
  match chunk with
  | .token content messageId =>
    let acc := s.accumulatedContent ++ content.getD ""
    let r := jsOrGen messageId "ai-" gen s.ctr
    if optTruthy s.currentMessageId then
      ⟨s.currentMessageId, acc,
        updateFirstAi (s.currentMessageId.getD "") (setAiContent acc) s.messages, r.2⟩
    else
      ⟨some r.1, acc, s.messages ++ [.ai r.1 acc none], r.2⟩
  | .tool_call toolCall _ =>
    match toolCall with
    | some tc =>
      if optTruthy s.currentMessageId then
        ⟨s.currentMessageId, s.accumulatedContent,
          updateFirstAi (s.currentMessageId.getD "") (addToolCallPlain tc) s.messages,
          s.ctr⟩
      else s
    | none => s
  | .tool_result toolResult messageId =>
    match toolResult with
    | some tr =>
      let r := jsOrGen messageId "tool-" gen s.ctr
      ⟨none, "",
        s.messages ++ [.tool r.1 tr.content tr.name "success" (jsOr messageId "")], r.2⟩
    | none => s
  | .done => ⟨none, "", s.messages, s.ctr⟩
  | .error e =>
    ⟨none, "",
      s.messages ++ [.err ("err-" ++ gen s.ctr) ("⚠️ " ++ jsOr e "An error occurred")],
      s.ctr + 1⟩

/-- Initial accumulator state (fresh refs, empty message list). -/
def initAccState : AccState := ⟨none, "", [], 0⟩

/-- The property-test pure transition function `processChunksToMessages`
applied to a whole decoded chunk sequence. -/
def processChunksToMessages (gen : Nat → String) (chunks : List StreamChunk) :
    List MessageResponse :=
  (chunks.foldl (chunksToMessagesStep gen) initAccState).messages

/-- Driving the hook's per-chunk processor over a whole decoded sequence
starting from fresh state. -/
def runHookChunks (gen : Nat → String) (chunks : List StreamChunk) : AccState :=
  chunks.foldl (processStreamChunk gen) initAccState

/-- Is `m` an `ai` message? -/
def isAiMsg : MessageResponse → Bool
  | .ai _ _ _ => true
  | _ => false

/-- Number of `ai` messages in a list. -/
def countAi (msgs : List MessageResponse) : Nat :=
  (msgs.filter isAiMsg).length

/-- Is the chunk a `token` chunk? -/
def isTokenChunk : StreamChunk → Bool
  | .token _ _ => true
  | _ => false

/-- Is the chunk a `tool_call` chunk? -/
def isToolCallChunk : StreamChunk → Bool
  | .tool_call _ _ => true
  | _ => false

/-- Token chunks for a list of contents, all carrying one message id. -/
def tokenChunks (cs : List String) (mid : String) : List StreamChunk :=
  cs.map fun c => .token (some c) (some mid)

/-- The `tool_calls` list (defaulted to `[]` as by `|| []`) of the first
`ai` message carrying `mid`, the message both accumulators locate. -/
def firstAiToolCalls (msgs : List MessageResponse) (mid : String) :
    Option (List ToolCall) :=
  match msgs.find? (isAiWithId mid) with
  | some (.ai _ _ tcs) => some (tcs.getD [])
  | _ => none

/-- The list-level semantics of the hook's `tool_call` update on a
located message's `tool_calls`: append unless an entry with the same id
is present. -/
def dedupAppend (acc : List ToolCall) (tc : ToolCall) : List ToolCall :=
  if acc.any (fun t => t.id == tc.id) then acc else acc ++ [tc]

/-- Ids of the tool calls delivered by `tool_call` chunks of a sequence. -/
def chunkToolCallIds (chunks : List StreamChunk) : List String :=
  chunks.filterMap fun c =>
    match c with
    | .tool_call (some tc) _ => some tc.id
    | _ => none

/-- Tool-call ids attached to one message. -/
def msgToolCallIds : MessageResponse → List String
  | .ai _ _ (some tcs) => tcs.map ToolCall.id
  | _ => []

/-- Tool-call ids attached anywhere in a message list. -/
def stateToolCallIds (msgs : List MessageResponse) : List String :=
  msgs.flatMap msgToolCallIds

/-- An inline `functionCall` object appearing inside an assistant message's
content array (`args` again kept as its opaque serialization). -/
structure FunctionCall where
  name : String
  args : String
deriving DecidableEq, Repr

/-- One item of an assistant message's content array: a string, an object
with optional `text` and `functionCall` fields, or any other primitive
(skipped by the classifier). -/
inductive ContentItem where
  | str (s : String)
  | obj (text : Option String) (functionCall : Option FunctionCall)
  | otherPrim
deriving DecidableEq, Repr

/-- The `content` field of an assistant message: a string, an array of
items, or some other value. -/
inductive MsgContent where
  | str (s : String)
  | arr (items : List ContentItem)
  | other
deriving DecidableEq, Repr

/-- An `AIMessageChunk` as the classifier reads it: `content`, `id`, and
the optional `tool_calls` array (absent or non-array collapse to
`none`). -/
structure AiMsg where
  content : MsgContent
  id : Option String
  tool_calls : Option (List ToolCall)
deriving DecidableEq, Repr

/-- A `ToolMessage` as the classifier reads it; non-string `content` is
kept as its `JSON.stringify` serialization. -/
inductive ToolContent where
  | str (s : String)
  | json (j : String)
deriving DecidableEq, Repr

/-- The tool message record (`name` may be absent). -/
structure ToolMsg where
  name : Option String
  content : ToolContent
  id : Option String
deriving DecidableEq, Repr

/-- First element of the event payload, classified by its runtime
constructor name: `AIMessageChunk`, `ToolMessage`, or anything else. -/
inductive Msg where
  | aiChunk (m : AiMsg)
  | toolMsg (m : ToolMsg)
  | otherCtor
deriving DecidableEq, Repr

/-- A JavaScript value appearing as an element of the engine event array:
a string (candidate mode tag), an array (candidate payload, whose elements
may be null), or any other value. -/
inductive ElemVal where
  | str (s : String)
  | payloadArr (elems : List (Option Msg))
  | otherVal
deriving DecidableEq, Repr

/-- One raw engine event as received by `tokenGenerator`: a falsy value
(skipped by `if (!chunk) continue`), a truthy non-array value, or an
array of arbitrary length. -/
inductive EngineEvent where
  | nullish
  | nonArray
  | arr (elems : List ElemVal)
deriving DecidableEq, Repr

/-- Chunks produced from one item of an assistant content array: a
non-empty string item yields a token; an object item yields a token for a
truthy `text` field and then a tool call for a truthy `functionCall`
field; other items are skipped.  `now` models `Date.now().toString()`. -/
def classifyContentItem (now : String) (aiId : Option String) :
    ContentItem → List StreamChunk
  | .str s => if s = "" then [] else [.token (some s) aiId]
  | .obj text functionCall =>
    (match text with
     | some t => if t = "" then [] else [.token (some t) aiId]
     | none => []) ++
    (match functionCall with
     | some fc => [.tool_call (some ⟨fc.name, fc.args, jsOr aiId now⟩) aiId]
     | none => [])
  | .otherPrim => []

/-- Chunks produced from the first payload element (the "message"), by its
constructor name, following the `AIMessageChunk` and `ToolMessage`
branches of `tokenGenerator`. -/
def classifyMsg (now : String) : Msg → List StreamChunk
  | .aiChunk m =>
    (match m.content with
     | .str s => if s = "" then [] else [.token (some s) m.id]
     | .arr items => items.flatMap (classifyContentItem now m.id)
     | .other => []) ++
    (match m.tool_calls with
     | some tcs => if tcs.isEmpty then [] else tcs.map (fun tc => .tool_call (some tc) m.id)
     | none => [])
  | .toolMsg m =>
    [.tool_result
      (some ⟨jsOr m.name "unknown",
        match m.content with
        | .str s => s
        | .json j => j⟩) m.id]
  | .otherCtor => []

/-- The classifier `tokenGenerator`, one engine event at a time: only a
2-element array whose first element is the string `"messages"` and whose
second element is an array with at least one, non-null, first element is
handled; every other event yields no chunks. -/
def tokenGeneratorEvent (now : String) (e : EngineEvent) : List StreamChunk :=
  match e with
  | .nullish => []
  | .nonArray => []
  | .arr elems =>
    if elems.length = 2 then
      match elems with
      | (.str tag) :: rest =>
        if tag = "messages" then
          match rest with
          | (.payloadArr payload) :: _ =>
            if payload.length ≥ 1 then
              match payload with
              | (some msg) :: _ => classifyMsg now msg
              | none :: _ => []
              | [] => []
            else []
          | _ => []
        else []
      | _ => []
    else []

/-- The event shapes the classifier handles at all: a 2-element array
whose first element is the string tag `"messages"`. -/
def isMessagesTuple : EngineEvent → Prop
  | EngineEvent.arr [ElemVal.str "messages", _] => True
  | _ => False

/-- A candidate payload that reaches message classification: an array
whose first element exists and is non-null. -/
def payloadHasMsg : ElemVal → Prop
  | ElemVal.payloadArr (some _ :: _) => True
  | _ => False

/-- Lowercase hexadecimal digit. -/
def hexDigit (n : Nat) : Char :=
  if n < 10 then Char.ofNat (48 + n) else Char.ofNat (87 + n)

/-- Four-digit hexadecimal rendering used by `\uXXXX` escapes. -/
def hex4 (n : Nat) : List Char :=
  [hexDigit (n / 4096 % 16), hexDigit (n / 256 % 16), hexDigit (n / 16 % 16),
   hexDigit (n % 16)]

/-- `JSON.stringify` escaping of one character inside a string literal. -/
def jsonEscapeChar (c : Char) : List Char :=
  if c = '"' then ['\\', '"']
  else if c = '\\' then ['\\', '\\']
  else if c = '\n' then ['\\', 'n']
  else if c = '\r' then ['\\', 'r']
  else if c = '\t' then ['\\', 't']
  else if c = '\x08' then ['\\', 'b']
  else if c = '\x0c' then ['\\', 'f']
  else if c.toNat < 32 then '\\' :: 'u' :: hex4 c.toNat
  else [c]

/-- `JSON.stringify` of a string value. -/
def jsonQuote (s : String) : String :=
  "\"" ++ String.mk (s.data.flatMap jsonEscapeChar) ++ "\""

/-- `JSON.stringify` of a `ToolCall` object (insertion order of the object
literal in `tokenGenerator`; `args` is spliced in as already-serialized
JSON). -/
def encodeToolCall (tc : ToolCall) : String :=
  "\x7b\"name\":" ++ jsonQuote tc.name ++ ",\"args\":" ++ tc.args ++
    ",\"id\":" ++ jsonQuote tc.id ++ ",\"type\":\"tool_call\"\x7d"

/-- `JSON.stringify` of a `StreamChunk`, with absent optional fields
omitted, in the insertion order of the object literals that create the
chunks. -/
def encodeChunkJson : StreamChunk → String
  | .token content messageId =>
    "\x7b\"type\":\"token\"" ++
      (match content with | some c => ",\"content\":" ++ jsonQuote c | none => "") ++
      (match messageId with | some m => ",\"messageId\":" ++ jsonQuote m | none => "") ++
      "\x7d"
  | .tool_call toolCall messageId =>
    "\x7b\"type\":\"tool_call\"" ++
      (match toolCall with | some tc => ",\"toolCall\":" ++ encodeToolCall tc | none => "") ++
      (match messageId with | some m => ",\"messageId\":" ++ jsonQuote m | none => "") ++
      "\x7d"
  | .tool_result toolResult messageId =>
    "\x7b\"type\":\"tool_result\"" ++
      (match toolResult with
       | some tr =>
         ",\"toolResult\":\x7b\"name\":" ++ jsonQuote tr.name ++ ",\"content\":" ++
           jsonQuote tr.content ++ "\x7d"
       | none => "") ++
      (match messageId with | some m => ",\"messageId\":" ++ jsonQuote m | none => "") ++
      "\x7d"
  | .done => "\x7b\"type\":\"done\"\x7d"
  | .error e =>
    "\x7b\"type\":\"error\"" ++
      (match e with | some m => ",\"error\":" ++ jsonQuote m | none => "") ++ "\x7d"

/-- The SSE transport connection owned by the route's `ReadableStream`
controller: the frames enqueued so far and whether the controller was
closed. -/
structure SseConn where
  frames : List String
  closed : Bool
deriving DecidableEq, Repr

/-- `controller.enqueue`: appends a frame while the stream is open; a
closed controller accepts nothing further. -/
def enqueue (c : SseConn) (f : String) : SseConn :=
  if c.closed then c else ⟨c.frames ++ [f], false⟩

/-- `controller.close`. -/
def closeConn (c : SseConn) : SseConn := ⟨c.frames, true⟩

/-- The route's `send` helper: one `data:` frame per chunk. -/
def sendChunk (c : SseConn) (ch : StreamChunk) : SseConn :=
  enqueue c ("data: " ++ encodeChunkJson ch ++ "\n\n")

/-- Outcome of draining the engine's event iterable inside the route's
`try` block: graceful exhaustion, or a failure whose JavaScript error
message may be absent or empty (`(err as Error)?.message`). -/
inductive DrainResult where
  | ok
  | fail (msg : Option String)
deriving DecidableEq, Repr

/-- The body of `GET` in the SSE stream route: emit the `: connected`
comment, forward every classified chunk as a `data:` frame (`chunks` is
the sequence the iterable yielded before finishing or failing), then the
terminal framing of the taken path, then close the controller
(`finally`). -/
def runGET (threadId : String) (chunks : List StreamChunk) (res : DrainResult) :
    SseConn :=
  let c0 := enqueue ⟨[], false⟩ ": connected\n\n"
  let c1 := chunks.foldl sendChunk c0
  let c2 :=
    match res with
    | .ok =>
      let a := sendChunk c1 .done
      let b := enqueue a "event: done\n"
      enqueue b "data: \x7b\x7d\n\n"
    | .fail m =>
      let msg := jsOr m "Stream error"
      let a := sendChunk c1 (.error (some msg))
      let b := enqueue a "event: error\n"
      enqueue b ("data: \x7b\"message\":" ++ jsonQuote msg ++ ",\"threadId\":" ++
        jsonQuote threadId ++ "\x7d\n\n")
  closeConn c2

/-- Expected length of a UTF-8 sequence from its lead byte (bytes that can
never lead a sequence are consumed alone). -/
def utf8Len (b : Nat) : Nat :=
  if b < 192 then 1 else if b < 224 then 2 else if b < 240 then 3
  else if b < 248 then 4 else 1

/-- Code point of a complete UTF-8 sequence, or the out-of-range sentinel
`0x110000` when the bytes are not a well-formed sequence. -/
def decodeCore : List Nat → Nat
  | [b] => if b < 128 then b else 1114112
  | [b0, b1] =>
    if 194 ≤ b0 ∧ b0 < 224 ∧ 128 ≤ b1 ∧ b1 < 192 then
      (b0 - 192) * 64 + (b1 - 128)
    else 1114112
  | [b0, b1, b2] =>
    if 224 ≤ b0 ∧ b0 < 240 ∧ 128 ≤ b1 ∧ b1 < 192 ∧ 128 ≤ b2 ∧ b2 < 192 then
      (b0 - 224) * 4096 + (b1 - 128) * 64 + (b2 - 128)
    else 1114112
  | [b0, b1, b2, b3] =>
    if 240 ≤ b0 ∧ b0 < 248 ∧ 128 ≤ b1 ∧ b1 < 192 ∧ 128 ≤ b2 ∧ b2 < 192 ∧
        128 ≤ b3 ∧ b3 < 192 then
      (b0 - 240) * 262144 + (b1 - 128) * 4096 + (b2 - 128) * 64 + (b3 - 128)
    else 1114112
  | _ => 1114112

/-- The stateful streaming text decoder (`TextDecoder` with
`stream: true`): greedily decode complete UTF-8 sequences from the left
and return the decoded characters together with the retained incomplete
trailing bytes. -/
def utf8DecodeLoop : List Nat → List Char × List Nat
  | [] => ([], [])
  | b :: rest =>
    if h : (b :: rest).length < utf8Len b then ([], b :: rest)
    else
      let c := Char.ofNat (decodeCore ((b :: rest).take (utf8Len b)))
      let r := utf8DecodeLoop ((b :: rest).drop (utf8Len b))
      (c :: r.1, r.2)
termination_by l => l.length
decreasing_by
  simp only [List.length_drop, List.length_cons]
  have hpos : 1 ≤ utf8Len b := by
    unfold utf8Len
    split
    · omega
    split
    · omega
    split
    · omega
    split
    · omega
    · omega
  simp only [List.length_cons] at h
  omega

/-- UTF-8 encoding of one character. -/
def utf8EncodeChar (c : Char) : List Nat :=
  if c.toNat < 128 then [c.toNat]
  else if c.toNat < 2048 then [192 + c.toNat / 64, 128 + c.toNat % 64]
  else if c.toNat < 65536 then
    [224 + c.toNat / 4096, 128 + c.toNat / 64 % 64, 128 + c.toNat % 64]
  else
    [240 + c.toNat / 262144, 128 + c.toNat / 4096 % 64, 128 + c.toNat / 64 % 64,
      128 + c.toNat % 64]

/-- UTF-8 encoding of a string (the wire bytes of an SSE frame). -/
def utf8Encode (s : String) : List Nat :=
  s.data.flatMap utf8EncodeChar

/-- One pass of `buffer.split("\n")` followed by `buffer = lines.pop()`:
the complete lines (all split segments but the last) and the retained
trailing segment. -/
def splitBuf : List Char → List (List Char) × List Char
  | [] => ([], [])
  | c :: cs =>
    let r := splitBuf cs
    if c = '\n' then ([] :: r.1, r.2)
    else
      match r.1 with
      | [] => ([], c :: r.2)
      | l :: ls => ((c :: l) :: ls, r.2)

/-- State of the client's read loop: the streaming decoder's pending
bytes, the line buffer, and the complete lines handed to the per-line
processing so far. -/
structure ClientState where
  pending : List Nat
  buffer : List Char
  lines : List (List Char)
deriving DecidableEq, Repr

/-- Fresh read-loop state. -/
def initClientState : ClientState := ⟨[], [], []⟩

/-- One iteration of the `while` loop of `handleStreamResponse` on a
received byte buffer: streaming-decode, append to the text buffer, split
on `\n`, process the fully-formed lines, and keep the final segment as
the new buffer. -/
def feedBytes (s : ClientState) (bs : List Nat) : ClientState :=
  let d := utf8DecodeLoop (s.pending ++ bs)
  let l := splitBuf (s.buffer ++ d.1)
  ⟨d.2, l.2, s.lines ++ l.1⟩

/-- The `data:` payload extracted from one complete line, if the line is a
processable data frame: empty lines and comments are skipped, and an
empty or `"\x7b\x7d"` payload is discarded. -/
def dataPayload (l : List Char) : Option String :=
  if l = [] then none
  else if l.take 1 = [':'] then none
  else if l.take 6 = "data: ".data then
    let j := String.mk (l.drop 6)
    if j = "" ∨ j = "\x7b\x7d" then none else some j
  else none

/-- The chunks a decode function `dec` (modeling `JSON.parse` plus the
`StreamChunk` cast, `none` on a parse failure) produces from the complete
lines processed so far. -/
def decodedChunks (dec : String → Option StreamChunk) (s : ClientState) :
    List StreamChunk :=
  (s.lines.filterMap dataPayload).filterMap dec

/-- The accumulator-state reset shared by the `event: done` and
`event: error` line handlers (`setIsSending` is UI state and outside the
accumulator). -/
def resetAcc (s : AccState) : AccState :=
  ⟨none, "", s.messages, s.ctr⟩

/-- Effect of one complete line on the accumulator, following the line
classification of `handleStreamResponse`: comments and empty lines are
skipped; a `data: ` line's payload is decoded with `dec` and processed,
with parse failures and empty or `"\x7b\x7d"` payloads silently ignored;
`event: done` and `event: error` lines reset the accumulation window. -/
def processClientLine (dec : String → Option StreamChunk) (gen : Nat → String)
    (s : AccState) (l : List Char) : AccState :=
  if l = [] ∨ l.take 1 = [':'] then s
  else
    let s1 :=
      if l.take 6 = "data: ".data then
        let j := String.mk (l.drop 6)
        if j = "" ∨ j = "\x7b\x7d" then s
        else
          match dec j with
          | some ch => processStreamChunk gen s ch
          | none => s
      else s
    let s2 := if l.take 11 = "event: done".data then resetAcc s1 else s1
    if l.take 12 = "event: error".data then resetAcc s2 else s2

/-! Helper lemmas. -/

theorem utf8Len_pos (b : Nat) : 1 ≤ utf8Len b := by
  unfold utf8Len
  split
  · omega
  split
  · omega
  split
  · omega
  split
  · omega
  · omega

theorem tokenGeneratorEvent_msg (now : String) (msg : Msg) (rest : List (Option Msg)) :
    tokenGeneratorEvent now (.arr [.str "messages", .payloadArr (some msg :: rest)]) =
      classifyMsg now msg := by
  simp [tokenGeneratorEvent]

theorem filter_isToken_toolcalls (tcs : List ToolCall) (mid : Option String) :
    ((tcs.map fun tc => StreamChunk.tool_call (some tc) mid).filter isTokenChunk) = [] := by
  induction tcs with
  | nil => rfl
  | cons a t ih => simp [isTokenChunk, ih]

theorem foldl_sendChunk_open (chunks : List StreamChunk) (fs : List String) :
    chunks.foldl sendChunk ⟨fs, false⟩ =
      ⟨fs ++ chunks.map (fun ch => "data: " ++ encodeChunkJson ch ++ "\n\n"), false⟩ := by
  induction chunks generalizing fs with
  | nil => simp
  | cons a t ih => simp [sendChunk, enqueue, ih]

theorem isAiMsg_setAiContent (acc : String) (m : MessageResponse) :
    isAiMsg (setAiContent acc m) = isAiMsg m := by
  cases m <;> rfl

theorem isAiMsg_addToolCallDedup (tc : ToolCall) (m : MessageResponse) :
    isAiMsg (addToolCallDedup tc m) = isAiMsg m := by
  cases m with
  | ai i c tcs =>
    simp only [addToolCallDedup]
    split <;> rfl
  | human i c => rfl
  | tool i c n st tci => rfl
  | err i c => rfl

theorem isAiMsg_addToolCallPlain (tc : ToolCall) (m : MessageResponse) :
    isAiMsg (addToolCallPlain tc m) = isAiMsg m := by
  cases m <;> rfl

theorem countAi_append (l : List MessageResponse) (m : MessageResponse) :
    countAi (l ++ [m]) = countAi l + (if isAiMsg m then 1 else 0) := by
  simp only [countAi, List.filter_append, List.filter_cons, List.filter_nil,
    List.length_append]
  split <;> simp

theorem countAi_updateFirstAi (mid : String) (f : MessageResponse → MessageResponse)
    (hf : ∀ m, isAiMsg (f m) = isAiMsg m) (l : List MessageResponse) :
    countAi (updateFirstAi mid f l) = countAi l := by
  induction l with
  | nil => rfl
  | cons a t ih =>
    simp only [updateFirstAi]
    by_cases ha : isAiWithId mid a
    · simp only [ha, if_pos, countAi, List.filter_cons, hf a]
      split <;> simp [countAi]
    · simp only [ha, Bool.false_eq_true, if_neg, not_false_eq_true, countAi,
        List.filter_cons]
      simp only [countAi] at ih
      split <;> simp [ih]

theorem step_eq_of_not_toolCall (gen : Nat → String) (s : AccState) (c : StreamChunk)
    (h : isToolCallChunk c = false) :
    processStreamChunk gen s c = chunksToMessagesStep gen s c := by
  cases c with
  | token a b => rfl
  | tool_call a b => simp [isToolCallChunk] at h
  | tool_result a b => rfl
  | done => rfl
  | error a => rfl

theorem foldl_step_eq (gen : Nat → String) (chunks : List StreamChunk)
    (hc : ∀ c ∈ chunks, isToolCallChunk c = false) :
    ∀ s, List.foldl (processStreamChunk gen) s chunks =
      List.foldl (chunksToMessagesStep gen) s chunks := by
  induction chunks with
  | nil => intro s; rfl
  | cons a t ih =>
    intro s
    rw [List.foldl_cons, List.foldl_cons,
      step_eq_of_not_toolCall gen s a (hc a (by simp))]
    exact ih (fun c hmem => hc c (by simp [hmem])) _

theorem ai_gen_ne_empty (x : String) : ("ai-" ++ x) ≠ "" := by
  intro h
  have hl : ("ai-" ++ x).length = ("" : String).length := by rw [h]
  rw [String.length_append] at hl
  have h3 : ("ai-" : String).length = 3 := rfl
  have h0 : ("" : String).length = 0 := rfl
  omega

theorem jsOrGen_token_truthy (mi : Option String) (gen : Nat → String) (ctr : Nat) :
    optTruthy (some (jsOrGen mi "ai-" gen ctr).1) = true := by
  cases mi with
  | none => simp [jsOrGen, optTruthy, ai_gen_ne_empty]
  | some s =>
    by_cases hs : s = "" <;> simp [jsOrGen, optTruthy, hs, ai_gen_ne_empty]

theorem svc_step_token_active (gen : Nat → String) (s : AccState)
    (c mi : Option String) (h : optTruthy s.currentMessageId = true) :
    (chunksToMessagesStep gen s (.token c mi)).currentMessageId =
        s.currentMessageId ∧
    countAi (chunksToMessagesStep gen s (.token c mi)).messages =
        countAi s.messages := by
  have hstep : chunksToMessagesStep gen s (.token c mi) =
      ⟨s.currentMessageId, s.accumulatedContent ++ c.getD "",
        updateFirstAi (s.currentMessageId.getD "")
          (setAiContent (s.accumulatedContent ++ c.getD "")) s.messages,
        (jsOrGen mi "ai-" gen s.ctr).2⟩ := by
    simp [chunksToMessagesStep, h]
  rw [hstep]
  exact ⟨rfl, countAi_updateFirstAi _ _ (isAiMsg_setAiContent _) _⟩

theorem svc_fold_tokens_active (gen : Nat → String) (cs : List String) (mid : String) :
    ∀ s : AccState, optTruthy s.currentMessageId = true →
      (List.foldl (chunksToMessagesStep gen) s (tokenChunks cs mid)).currentMessageId =
          s.currentMessageId ∧
      countAi (List.foldl (chunksToMessagesStep gen) s (tokenChunks cs mid)).messages =
          countAi s.messages := by
  induction cs with
  | nil => intro s _; exact ⟨rfl, rfl⟩
  | cons a t ih =>
    intro s h
    simp only [tokenChunks, List.map_cons, List.foldl_cons]
    have hstep := svc_step_token_active gen s (some a) (some mid) h
    have h2 : optTruthy
        (chunksToMessagesStep gen s (.token (some a) (some mid))).currentMessageId =
        true := by
      rw [hstep.1]; exact h
    obtain ⟨ih1, ih2⟩ := ih _ h2
    simp only [tokenChunks] at ih1 ih2
    exact ⟨ih1.trans hstep.1, ih2.trans hstep.2⟩

theorem svc_fold_tokens_fresh (gen : Nat → String) (a : String) (t : List String)
    (mid : String) (s : AccState) (h : optTruthy s.currentMessageId = false) :
    countAi (List.foldl (chunksToMessagesStep gen) s
        (tokenChunks (a :: t) mid)).messages = countAi s.messages + 1 ∧
    optTruthy (List.foldl (chunksToMessagesStep gen) s
        (tokenChunks (a :: t) mid)).currentMessageId = true := by
  simp only [tokenChunks, List.map_cons, List.foldl_cons]
  have hcreate : chunksToMessagesStep gen s (.token (some a) (some mid)) =
      ⟨some (jsOrGen (some mid) "ai-" gen s.ctr).1,
        s.accumulatedContent ++ a,
        s.messages ++ [.ai (jsOrGen (some mid) "ai-" gen s.ctr).1
          (s.accumulatedContent ++ a) none],
        (jsOrGen (some mid) "ai-" gen s.ctr).2⟩ := by
    simp [chunksToMessagesStep, h]
  rw [hcreate]
  have htr := jsOrGen_token_truthy (some mid) gen s.ctr
  obtain ⟨hc1, hc2⟩ := svc_fold_tokens_active gen t mid
    ⟨some (jsOrGen (some mid) "ai-" gen s.ctr).1, s.accumulatedContent ++ a,
      s.messages ++ [.ai (jsOrGen (some mid) "ai-" gen s.ctr).1
        (s.accumulatedContent ++ a) none],
      (jsOrGen (some mid) "ai-" gen s.ctr).2⟩ htr
  simp only [tokenChunks] at hc1 hc2
  refine ⟨?_, ?_⟩
  · rw [hc2]
    simp [countAi_append, isAiMsg]
  · rw [hc1]
    exact htr

theorem svc_step_toolresult (gen : Nat → String) (s : AccState) (tr : ToolResult)
    (trid : Option String) :
    (chunksToMessagesStep gen s (.tool_result (some tr) trid)).currentMessageId =
        none ∧
    countAi (chunksToMessagesStep gen s (.tool_result (some tr) trid)).messages =
        countAi s.messages := by
  simp [chunksToMessagesStep, countAi_append, isAiMsg]

theorem tokenChunks_not_toolCall (cs : List String) (mid : String) :
    ∀ c ∈ tokenChunks cs mid, isToolCallChunk c = false := by
  intro c hc
  simp only [tokenChunks, List.mem_map] at hc
  obtain ⟨x, _, rfl⟩ := hc
  rfl

/-! Theorems for the claims. -/

/-- C1 (code bug): the token-fidelity guarantee fails on the logical-id
reuse case.  On the chunk sequence `token "A" (id m1)`, `tool_result`,
`token "B" (id m1)`, `token "C" (id m1)`, the accumulator's `findIndex`
locates the first `ai` message with id `m1` — the one closed by the tool
result — and overwrites its content with the second window's accumulated
text: the final list has first `ai` content `"BC"` (its routed tokens
concatenate to `"A"`) and second `ai` content `"B"` (its routed tokens
concatenate to `"BC"`).  Both accumulator implementations behave this
way. -/
theorem c1_token_fidelity_failing_eval (gen gen2 : Nat → String) :
    processChunksToMessages gen
      [.token (some "A") (some "m1"),
       .tool_result (some ⟨"t", "r"⟩) (some "tm"),
       .token (some "B") (some "m1"),
       .token (some "C") (some "m1")] =
      [.ai "m1" "BC" none, .tool "tm" "r" "t" "success" "tm", .ai "m1" "B" none] ∧
    (runHookChunks gen2
      [.token (some "A") (some "m1"),
       .tool_result (some ⟨"t", "r"⟩) (some "tm"),
       .token (some "B") (some "m1"),
       .token (some "C") (some "m1")]).messages =
      [.ai "m1" "BC" none, .tool "tm" "r" "t" "success" "tm", .ai "m1" "B" none] := by
  exact ⟨rfl, rfl⟩

/-- C2 (counterexample): a `"messages"` event whose payload has exactly
one element is classified — it yields a token chunk — contradicting the
claim that a payload of fewer than 2 elements yields nothing (the code
gates on `chunkData.length >= 1`). -/
theorem c2_counterexample :
    tokenGeneratorEvent "0"
      (.arr [.str "messages",
        .payloadArr [some (.aiChunk ⟨.str "Hi", some "m1", none⟩)]]) =
      [.token (some "Hi") (some "m1")] := by
  rfl

/-- C2 (amended): the classifier yields zero chunks unless the event is a
2-element array whose first element is the string `"messages"`; and for a
`"messages"` tuple it yields nothing unless the payload is an array with
at least one element whose first element is non-null. -/
theorem c2_classifier_gating_amended (now : String) :
    (∀ e : EngineEvent, ¬ isMessagesTuple e → tokenGeneratorEvent now e = []) ∧
    (∀ p : ElemVal, ¬ payloadHasMsg p →
      tokenGeneratorEvent now (.arr [.str "messages", p]) = []) := by
  constructor
  · intro e he
    match e with
    | .nullish => rfl
    | .nonArray => rfl
    | .arr [] => rfl
    | .arr [_] => rfl
    | .arr (_ :: _ :: _ :: _) => simp [tokenGeneratorEvent]
    | .arr [.payloadArr _, _] => rfl
    | .arr [.otherVal, _] => rfl
    | .arr [.str tag, p] =>
      by_cases htag : tag = "messages"
      · subst htag
        exact absurd trivial he
      · simp [tokenGeneratorEvent, htag]
  · intro p hp
    match p with
    | .str _ => rfl
    | .otherVal => rfl
    | .payloadArr [] => rfl
    | .payloadArr (none :: _) => simp [tokenGeneratorEvent]
    | .payloadArr (some _ :: _) => exact absurd trivial hp

/-- C2 (witness): a non-`"messages"` mode and a null first payload
element both yield zero chunks. -/
theorem c2_witness :
    tokenGeneratorEvent "0" (.arr [.str "updates", .payloadArr [some .otherCtor]]) = [] ∧
    tokenGeneratorEvent "0" (.arr [.str "messages", .payloadArr [none]]) = [] :=
  ⟨(c2_classifier_gating_amended "0").1 _ (fun h => h),
   (c2_classifier_gating_amended "0").2 _ (fun h => h)⟩

/-- C8 (counterexample): an `AIMessageChunk` event with empty string
content but a non-empty `tool_calls` list yields a `tool_call` chunk,
contradicting the claim that empty content yields no chunk at all. -/
theorem c8_counterexample :
    tokenGeneratorEvent "0"
      (.arr [.str "messages",
        .payloadArr [some (.aiChunk ⟨.str "", some "m1",
          some [⟨"search", "q", "c1"⟩]⟩)]]) =
      [.tool_call (some ⟨"search", "q", "c1"⟩) (some "m1")] := by
  rfl

/-- C8 (amended): for an assistant-delta event with non-empty string
content the classifier yields exactly one `token` chunk, carrying the
content verbatim and the message's id; empty string content yields no
`token` chunk (chunks may still be yielded for the message's
`tool_calls` list). -/
theorem c8_token_classification_amended (now : String) (m : AiMsg)
    (rest : List (Option Msg)) :
    (∀ s : String, m.content = .str s → s ≠ "" →
      (tokenGeneratorEvent now
        (.arr [.str "messages", .payloadArr (some (.aiChunk m) :: rest)])).filter
          isTokenChunk = [.token (some s) m.id]) ∧
    (m.content = .str "" →
      (tokenGeneratorEvent now
        (.arr [.str "messages", .payloadArr (some (.aiChunk m) :: rest)])).filter
          isTokenChunk = []) := by
  have base :
      tokenGeneratorEvent now
        (.arr [.str "messages", .payloadArr (some (.aiChunk m) :: rest)]) =
        classifyMsg now (.aiChunk m) := tokenGeneratorEvent_msg now _ rest
  constructor
  · intro s hs hne
    rw [base]
    simp only [classifyMsg, hs, List.filter_append, if_neg hne]
    cases htc : m.tool_calls with
    | none => simp [isTokenChunk]
    | some tcs =>
      by_cases hemp : tcs.isEmpty
      · simp [isTokenChunk, hemp]
      · simp [isTokenChunk, hemp, filter_isToken_toolcalls]
  · intro hs
    rw [base]
    simp only [classifyMsg, hs, List.filter_append, if_pos rfl]
    cases htc : m.tool_calls with
    | none => simp
    | some tcs =>
      by_cases hemp : tcs.isEmpty
      · simp [hemp]
      · simp [hemp, filter_isToken_toolcalls]

/-- C8 (witness): a concrete assistant delta with content `"Hi"` and one
attached tool call yields exactly one token chunk, verbatim. -/
theorem c8_witness :
    (tokenGeneratorEvent "0"
      (.arr [.str "messages",
        .payloadArr [some (.aiChunk ⟨.str "Hi", some "m1",
          some [⟨"search", "q", "c1"⟩]⟩)]])).filter isTokenChunk =
      [.token (some "Hi") (some "m1")] :=
  (c8_token_classification_amended "0" ⟨.str "Hi", some "m1",
    some [⟨"search", "q", "c1"⟩]⟩ []).1 "Hi" rfl (by decide)

/-- C9 (counterexample): a `ToolMessage` whose `name` is present but
empty is classified with name `"unknown"` (the `||` fallback treats the
empty string as absent), contradicting the claim that the chunk's name
equals the message's name whenever one is present. -/
theorem c9_counterexample :
    tokenGeneratorEvent "0"
      (.arr [.str "messages",
        .payloadArr [some (.toolMsg ⟨some "", .str "res", some "t1"⟩)]]) =
      [.tool_result (some ⟨"unknown", "res"⟩) (some "t1")] := by
  rfl

/-- C9 (amended): every `"messages"` event carrying a `ToolMessage`
yields exactly one `tool_result` chunk; its name is the message's name
except that an absent or empty name becomes the literal `"unknown"`; its
content is the message's content verbatim when that is a string, and its
JSON serialization otherwise. -/
theorem c9_tool_result_amended (now : String) (m : ToolMsg)
    (rest : List (Option Msg)) :
    tokenGeneratorEvent now
        (.arr [.str "messages", .payloadArr (some (.toolMsg m) :: rest)]) =
      [.tool_result (some ⟨jsOr m.name "unknown",
        match m.content with | .str s => s | .json j => j⟩) m.id] ∧
    (m.name = none ∨ m.name = some "" → jsOr m.name "unknown" = "unknown") ∧
    (∀ s, m.name = some s → s ≠ "" → jsOr m.name "unknown" = s) := by
  refine ⟨tokenGeneratorEvent_msg now _ rest, ?_, ?_⟩
  · rintro (h | h) <;> simp [jsOr, h]
  · intro s hs hne
    simp [jsOr, hs, hne]

/-- C9 (witness): a concrete tool message with a non-empty name keeps its
name and string content verbatim. -/
theorem c9_witness :
    tokenGeneratorEvent "0"
      (.arr [.str "messages",
        .payloadArr [some (.toolMsg ⟨some "search", .str "res", some "t1"⟩)]]) =
      [.tool_result (some ⟨"search", "res"⟩) (some "t1")] ∧
    jsOr (some "search") "unknown" = "search" :=
  ⟨(c9_tool_result_amended "0" ⟨some "search", .str "res", some "t1"⟩ []).1,
   (c9_tool_result_amended "0" ⟨some "search", .str "res", some "t1"⟩ []).2.2
     "search" rfl (by decide)⟩

/-- C5: for every drain outcome the route emits the leading comment
frame, one `data:` frame per forwarded chunk, and then exactly the
terminal framing of the taken path — on success a `done` chunk frame,
the named `event: done` frame and its empty JSON payload; on failure an
`error` chunk frame carrying the failure's message (defaulted to
`"Stream error"`), the named `event: error` frame and its
`message`/`threadId` payload — after which the controller is closed and
accepts no further frames. -/
theorem c5_terminal_framing (threadId : String) (chunks : List StreamChunk)
    (res : DrainResult) :
    (runGET threadId chunks res).closed = true ∧
    (∀ f, enqueue (runGET threadId chunks res) f = runGET threadId chunks res) ∧
    (runGET threadId chunks res).frames =
      ": connected\n\n" ::
        chunks.map (fun ch => "data: " ++ encodeChunkJson ch ++ "\n\n") ++
        (match res with
         | .ok =>
           ["data: " ++ encodeChunkJson .done ++ "\n\n", "event: done\n",
            "data: \x7b\x7d\n\n"]
         | .fail m =>
           ["data: " ++ encodeChunkJson (.error (some (jsOr m "Stream error"))) ++
              "\n\n",
            "event: error\n",
            "data: \x7b\"message\":" ++ jsonQuote (jsOr m "Stream error") ++
              ",\"threadId\":" ++ jsonQuote threadId ++ "\x7d\n\n"]) := by
  have hrun : runGET threadId chunks res =
      ⟨": connected\n\n" ::
        chunks.map (fun ch => "data: " ++ encodeChunkJson ch ++ "\n\n") ++
        (match res with
         | .ok =>
           ["data: " ++ encodeChunkJson .done ++ "\n\n", "event: done\n",
            "data: \x7b\x7d\n\n"]
         | .fail m =>
           ["data: " ++ encodeChunkJson (.error (some (jsOr m "Stream error"))) ++
              "\n\n",
            "event: error\n",
            "data: \x7b\"message\":" ++ jsonQuote (jsOr m "Stream error") ++
              ",\"threadId\":" ++ jsonQuote threadId ++ "\x7d\n\n"]), true⟩ := by
    cases res with
    | ok => simp [runGET, enqueue, closeConn, sendChunk, foldl_sendChunk_open]
    | fail m => simp [runGET, enqueue, closeConn, sendChunk, foldl_sendChunk_open]
  refine ⟨by rw [hrun], fun f => by rw [hrun]; simp [enqueue], by rw [hrun]⟩

/-- C7: a received `data: ` line whose payload is empty, the literal
`"\x7b\x7d"`, or rejected by the JSON decoder leaves the accumulator
state (including the message list) unchanged, and processing of the
remaining lines continues from the same state. -/
theorem c7_malformed_data_resilience (dec : String → Option StreamChunk)
    (gen : Nat → String) (s : AccState) (j : String)
    (hbad : j = "" ∨ j = "\x7b\x7d" ∨ dec j = none) :
    processClientLine dec gen s ("data: ".data ++ j.data) = s ∧
    ∀ rest : List (List Char),
      List.foldl (processClientLine dec gen) s (("data: ".data ++ j.data) :: rest) =
        List.foldl (processClientLine dec gen) s rest := by
  have hdata : ("data: ".data ++ j.data) = 'd' :: 'a' :: 't' :: 'a' :: ':' :: ' ' :: j.data := rfl
  have hline : processClientLine dec gen s ("data: ".data ++ j.data) = s := by
    rw [hdata]
    simp only [processClientLine, List.take, List.drop]
    rcases hbad with h | h | h
    · simp [h]
    · simp [h]
    · by_cases hj : j = "" ∨ j = "\x7b\x7d"
      · simp [hj]
      · simp [hj, h]
  exact ⟨hline, fun rest => by rw [List.foldl_cons, hline]⟩

/-- C7 (witness): a concrete `data: ` line whose payload is rejected by
the decoder leaves the fresh accumulator state unchanged. -/
theorem c7_witness :
    ("nope" = "" ∨ "nope" = "\x7b\x7d" ∨
      (fun _ : String => (none : Option StreamChunk)) "nope" = none) ∧
    processClientLine (fun _ => none) (fun _ => "g") initAccState
      ("data: ".data ++ "nope".data) = initAccState :=
  ⟨Or.inr (Or.inr rfl),
   (c7_malformed_data_resilience (fun _ => none) (fun _ => "g") initAccState "nope"
     (Or.inr (Or.inr rfl))).1⟩

/-- C3: the chunk sequence token×N (id `m1`), `tool_result`, token×M
(id `m1` reused), with N, M ≥ 1, produces exactly two `ai` messages in
both accumulator implementations: the tool result resets
`currentMessageId` and `accumulatedContent`, so the first reused-id token
opens a fresh `ai` message. -/
theorem c3_tool_result_reset (gen gen2 : Nat → String) (m1 : String)
    (cs1 cs2 : List String) (h1 : cs1 ≠ []) (h2 : cs2 ≠ []) (tr : ToolResult)
    (trid : Option String) :
    countAi (processChunksToMessages gen
      (tokenChunks cs1 m1 ++ .tool_result (some tr) trid :: tokenChunks cs2 m1)) =
      2 ∧
    countAi ((runHookChunks gen2
      (tokenChunks cs1 m1 ++ .tool_result (some tr) trid ::
        tokenChunks cs2 m1)).messages) = 2 := by
  have main : ∀ g : Nat → String,
      countAi ((List.foldl (chunksToMessagesStep g) initAccState
        (tokenChunks cs1 m1 ++ .tool_result (some tr) trid ::
          tokenChunks cs2 m1)).messages) = 2 := by
    intro g
    obtain ⟨a, t, rfl⟩ := List.exists_cons_of_ne_nil h1
    obtain ⟨b, u, rfl⟩ := List.exists_cons_of_ne_nil h2
    rw [List.foldl_append, List.foldl_cons]
    obtain ⟨hA1, hA2⟩ := svc_fold_tokens_fresh g a t m1 initAccState rfl
    set s1 := List.foldl (chunksToMessagesStep g) initAccState
      (tokenChunks (a :: t) m1) with hs1
    obtain ⟨hB1, hB2⟩ := svc_step_toolresult g s1 tr trid
    set s2 := chunksToMessagesStep g s1 (.tool_result (some tr) trid) with hs2
    have hfresh2 : optTruthy s2.currentMessageId = false := by
      rw [hB1]; rfl
    obtain ⟨hC1, hC2⟩ := svc_fold_tokens_fresh g b u m1 s2 hfresh2
    rw [hC1, hB2, hA1]
    rfl
  constructor
  · exact main gen
  · rw [runHookChunks, foldl_step_eq gen2 _ ?_ initAccState]
    · exact main gen2
    · intro c hc
      rw [List.mem_append, List.mem_cons] at hc
      rcases hc with hc | hc | hc
      · exact tokenChunks_not_toolCall _ _ c hc
      · rw [hc]; rfl
      · exact tokenChunks_not_toolCall _ _ c hc

/-- C3 (witness): the concrete sequence token `"He"`, `tool_result`,
token `"llo"` with the reused id `m1` yields exactly two `ai`
messages. -/
theorem c3_witness :
    (["He"] : List String) ≠ [] ∧ (["llo"] : List String) ≠ [] ∧
    countAi (processChunksToMessages (fun _ => "0")
      (tokenChunks ["He"] "m1" ++ .tool_result (some ⟨"t", "r"⟩) (some "tm") ::
        tokenChunks ["llo"] "m1")) = 2 :=
  ⟨by decide, by decide,
   (c3_tool_result_reset (fun _ => "0") (fun _ => "0") "m1" ["He"] ["llo"]
     (by decide) (by decide) ⟨"t", "r"⟩ (some "tm")).1⟩

/-- C10 (counterexample): on a sequence that delivers the same
`tool_call` chunk twice, the hook's processor records one entry while the
property-test transition function records two — the two implementations
disagree. -/
theorem c10_counterexample :
    (runHookChunks (fun _ => "0")
      [.token (some "A") (some "m1"),
       .tool_call (some ⟨"search", "q", "c1"⟩) (some "m1"),
       .tool_call (some ⟨"search", "q", "c1"⟩) (some "m1")]).messages ≠
    processChunksToMessages (fun _ => "0")
      [.token (some "A") (some "m1"),
       .tool_call (some ⟨"search", "q", "c1"⟩) (some "m1"),
       .tool_call (some ⟨"search", "q", "c1"⟩) (some "m1")] := by
  decide

theorem find?_updateFirstAi (mid : String) (f : MessageResponse → MessageResponse)
    (hf : ∀ m, isAiWithId mid m = true → isAiWithId mid (f m) = true)
    (l : List MessageResponse) :
    (updateFirstAi mid f l).find? (isAiWithId mid) =
      (l.find? (isAiWithId mid)).map f := by
  induction l with
  | nil => rfl
  | cons a rest ih =>
    by_cases ha : isAiWithId mid a = true
    · rw [updateFirstAi, if_pos ha, List.find?_cons_of_pos _ (hf a ha),
        List.find?_cons_of_pos _ ha]
      rfl
    · rw [updateFirstAi, if_neg ha, List.find?_cons_of_neg _ ha,
        List.find?_cons_of_neg _ ha, ih]

theorem isAiWithId_addToolCallDedup (mid : String) (tc : ToolCall)
    (m : MessageResponse) (hm : isAiWithId mid m = true) :
    isAiWithId mid (addToolCallDedup tc m) = true := by
  cases m with
  | ai i c tcs =>
    simp only [addToolCallDedup]
    split <;> exact hm
  | human i c => exact hm
  | tool i c n st tci => exact hm
  | err i c => exact hm

theorem firstAiToolCalls_update_dedup (mid : String) (tc : ToolCall)
    (l : List MessageResponse) (tcs0 : List ToolCall)
    (h : firstAiToolCalls l mid = some tcs0) :
    firstAiToolCalls (updateFirstAi mid (addToolCallDedup tc) l) mid =
      some (dedupAppend tcs0 tc) := by
  rw [firstAiToolCalls, find?_updateFirstAi mid _ (isAiWithId_addToolCallDedup mid tc)]
  cases hfind : l.find? (isAiWithId mid) with
  | none =>
    rw [firstAiToolCalls, hfind] at h
    exact absurd h (by simp)
  | some m =>
    cases m with
    | ai i c tcs =>
      rw [firstAiToolCalls, hfind] at h
      injection h with h
      subst h
      simp only [Option.map, addToolCallDedup]
      by_cases hdup : (tcs.getD []).any (fun t => t.id == tc.id) = true
      · rw [if_pos hdup, dedupAppend, if_pos hdup]
      · rw [if_neg hdup, dedupAppend, if_neg hdup]
        rfl
    | human i c =>
      rw [firstAiToolCalls, hfind] at h
      exact absurd h (by simp)
    | tool i c n st tci =>
      rw [firstAiToolCalls, hfind] at h
      exact absurd h (by simp)
    | err i c =>
      rw [firstAiToolCalls, hfind] at h
      exact absurd h (by simp)

theorem hook_step_toolcall (gen : Nat → String) (s : AccState) (tc : ToolCall)
    (cmid : Option String) (mid : String) (h1 : s.currentMessageId = some mid)
    (h2 : mid ≠ "") :
    processStreamChunk gen s (.tool_call (some tc) cmid) =
      ⟨s.currentMessageId, s.accumulatedContent,
        updateFirstAi mid (addToolCallDedup tc) s.messages, s.ctr⟩ := by
  have ht : optTruthy (some mid) = true := by simp [optTruthy, h2]
  simp [processStreamChunk, h1, ht]

theorem hook_fold_toolcalls (gen : Nat → String) (mid : String) (h2 : mid ≠ "")
    (cs : List ToolCall) :
    ∀ (cmid : Option String) (s : AccState) (tcs0 : List ToolCall),
      s.currentMessageId = some mid →
      firstAiToolCalls s.messages mid = some tcs0 →
      (List.foldl (processStreamChunk gen) s
          (cs.map fun tc => .tool_call (some tc) cmid)).currentMessageId =
        some mid ∧
      firstAiToolCalls
        (List.foldl (processStreamChunk gen) s
          (cs.map fun tc => .tool_call (some tc) cmid)).messages mid =
        some (List.foldl dedupAppend tcs0 cs) := by
  induction cs with
  | nil => intro cmid s tcs0 h1 h3; exact ⟨h1, h3⟩
  | cons tc rest ih =>
    intro cmid s tcs0 h1 h3
    rw [List.map_cons, List.foldl_cons, hook_step_toolcall gen s tc cmid mid h1 h2]
    have h1' : (⟨s.currentMessageId, s.accumulatedContent,
        updateFirstAi mid (addToolCallDedup tc) s.messages,
        s.ctr⟩ : AccState).currentMessageId = some mid := h1
    have h3' : firstAiToolCalls (⟨s.currentMessageId, s.accumulatedContent,
        updateFirstAi mid (addToolCallDedup tc) s.messages,
        s.ctr⟩ : AccState).messages mid = some (dedupAppend tcs0 tc) :=
      firstAiToolCalls_update_dedup mid tc s.messages tcs0 h3
    exact ih cmid _ (dedupAppend tcs0 tc) h1' h3'

theorem mem_ids_of_any (acc : List ToolCall) (i : String) :
    acc.any (fun x => x.id == i) = true ↔ i ∈ acc.map ToolCall.id := by
  simp only [List.any_eq_true, List.mem_map, beq_iff_eq]

theorem dedup_foldl_stable (tc : ToolCall) (acc : List ToolCall)
    (hmem : tc.id ∈ acc.map ToolCall.id) :
    ∀ k, List.foldl dedupAppend acc (List.replicate k tc) = acc := by
  intro k
  induction k with
  | zero => rfl
  | succ n ih =>
    rw [List.replicate_succ, List.foldl_cons]
    have : dedupAppend acc tc = acc := by
      rw [dedupAppend, if_pos ((mem_ids_of_any acc tc.id).mpr hmem)]
    rw [this, ih]

theorem dedup_foldl_replicate (tcs0 : List ToolCall) (tc : ToolCall) (n : Nat)
    (hn : 1 ≤ n) (hni : tc.id ∉ tcs0.map ToolCall.id) :
    List.foldl dedupAppend tcs0 (List.replicate n tc) = tcs0 ++ [tc] := by
  obtain ⟨k, rfl⟩ : ∃ k, n = k + 1 := ⟨n - 1, by omega⟩
  rw [Nat.add_comm, List.replicate_add, List.foldl_append, List.replicate_one,
    List.foldl_cons, List.foldl_nil]
  have hfirst : dedupAppend tcs0 tc = tcs0 ++ [tc] := by
    rw [dedupAppend, if_neg]
    intro hc
    exact hni ((mem_ids_of_any tcs0 tc.id).mp hc)
  rw [hfirst]
  exact dedup_foldl_stable tc (tcs0 ++ [tc]) (by simp) k

theorem dedup_foldl_distinct (cs : List ToolCall) :
    ∀ tcs0 : List ToolCall, (cs.map ToolCall.id).Nodup →
      (∀ i ∈ cs.map ToolCall.id, i ∉ tcs0.map ToolCall.id) →
      List.foldl dedupAppend tcs0 cs = tcs0 ++ cs := by
  induction cs with
  | nil => intro tcs0 _ _; simp
  | cons tc rest ih =>
    intro tcs0 hnd hdis
    rw [List.foldl_cons]
    have hfirst : dedupAppend tcs0 tc = tcs0 ++ [tc] := by
      rw [dedupAppend, if_neg]
      intro hc
      exact hdis tc.id (by simp) ((mem_ids_of_any tcs0 tc.id).mp hc)
    rw [hfirst]
    rw [List.map_cons, List.nodup_cons] at hnd
    have hdis' : ∀ i ∈ rest.map ToolCall.id, i ∉ (tcs0 ++ [tc]).map ToolCall.id := by
      intro i hi
      rw [List.map_append, List.mem_append]
      rintro (hmem | hmem)
      · exact hdis i (by simp [hi]) hmem
      · simp only [List.map_cons, List.map_nil, List.mem_singleton] at hmem
        exact hnd.1 (hmem ▸ hi)
    rw [ih (tcs0 ++ [tc]) hnd.2 hdis']
    simp

/-- C6: while `currentMessageId` refers to a located `ai` message,
delivering the same `tool_call` chunk (same `toolCall.id`) two or more
times leaves exactly one entry with that id in the message's
`tool_calls`, and delivering tool calls with pairwise distinct fresh ids
appends them all in arrival order. -/
theorem c6_idempotent_tool_call (gen : Nat → String) (s : AccState) (mid : String)
    (tcs0 : List ToolCall) (cmid : Option String)
    (h1 : s.currentMessageId = some mid) (h2 : mid ≠ "")
    (h3 : firstAiToolCalls s.messages mid = some tcs0) :
    (∀ (tc : ToolCall) (n : Nat), 2 ≤ n → tc.id ∉ tcs0.map ToolCall.id →
      firstAiToolCalls
        (List.foldl (processStreamChunk gen) s
          (List.replicate n (.tool_call (some tc) cmid))).messages mid =
        some (tcs0 ++ [tc])) ∧
    (∀ cs : List ToolCall, (cs.map ToolCall.id).Nodup →
      (∀ i ∈ cs.map ToolCall.id, i ∉ tcs0.map ToolCall.id) →
      firstAiToolCalls
        (List.foldl (processStreamChunk gen) s
          (cs.map fun tc => .tool_call (some tc) cmid)).messages mid =
        some (tcs0 ++ cs)) := by
  constructor
  · intro tc n hn hni
    have hrep : List.replicate n (StreamChunk.tool_call (some tc) cmid) =
        (List.replicate n tc).map (fun t => StreamChunk.tool_call (some t) cmid) := by
      rw [List.map_replicate]
    rw [hrep,
      (hook_fold_toolcalls gen mid h2 (List.replicate n tc) cmid s tcs0 h1 h3).2,
      dedup_foldl_replicate tcs0 tc n (by omega) hni]
  · intro cs hnd hdis
    rw [(hook_fold_toolcalls gen mid h2 cs cmid s tcs0 h1 h3).2,
      dedup_foldl_distinct cs tcs0 hnd hdis]

/-- C6 (witness): three deliveries of one tool call add a single entry,
and two distinct tool calls are appended in arrival order. -/
theorem c6_witness :
    firstAiToolCalls
      (List.foldl (processStreamChunk (fun _ => "0"))
        ⟨some "m1", "", [.ai "m1" "Hi" none], 0⟩
        (List.replicate 3 (.tool_call (some ⟨"t", "a", "c1"⟩) none))).messages "m1" =
      some [⟨"t", "a", "c1"⟩] ∧
    firstAiToolCalls
      (List.foldl (processStreamChunk (fun _ => "0"))
        ⟨some "m1", "", [.ai "m1" "Hi" none], 0⟩
        (([⟨"t", "a", "c1"⟩, ⟨"u", "b", "c2"⟩] : List ToolCall).map
          fun tc => .tool_call (some tc) none)).messages "m1" =
      some [⟨"t", "a", "c1"⟩, ⟨"u", "b", "c2"⟩] :=
  ⟨(c6_idempotent_tool_call (fun _ => "0") ⟨some "m1", "", [.ai "m1" "Hi" none], 0⟩
      "m1" [] none rfl (by decide) rfl).1 ⟨"t", "a", "c1"⟩ 3 (by decide) (by decide),
   (c6_idempotent_tool_call (fun _ => "0") ⟨some "m1", "", [.ai "m1" "Hi" none], 0⟩
      "m1" [] none rfl (by decide) rfl).2 [⟨"t", "a", "c1"⟩, ⟨"u", "b", "c2"⟩]
      (by decide) (by decide)⟩

theorem msgToolCallIds_setAiContent (acc : String) (m : MessageResponse) :
    msgToolCallIds (setAiContent acc m) = msgToolCallIds m := by
  cases m with
  | ai i c tcs => cases tcs <;> rfl
  | human i c => rfl
  | tool i c n st tci => rfl
  | err i c => rfl

theorem stateToolCallIds_update_eq (mid : String)
    (f : MessageResponse → MessageResponse)
    (hf : ∀ m, msgToolCallIds (f m) = msgToolCallIds m) (l : List MessageResponse) :
    stateToolCallIds (updateFirstAi mid f l) = stateToolCallIds l := by
  induction l with
  | nil => rfl
  | cons a rest ih =>
    simp only [updateFirstAi]
    by_cases ha : isAiWithId mid a = true
    · simp [ha, stateToolCallIds, hf a]
    · simp only [ha, Bool.false_eq_true, if_neg, not_false_eq_true]
      simp only [stateToolCallIds, List.flatMap_cons] at ih ⊢
      rw [ih]

theorem stateToolCallIds_append (l : List MessageResponse) (m : MessageResponse) :
    stateToolCallIds (l ++ [m]) = stateToolCallIds l ++ msgToolCallIds m := by
  simp [stateToolCallIds]

theorem mem_msgToolCallIds_addToolCallPlain (tc : ToolCall) (m : MessageResponse)
    (i : String) (hi : i ∈ msgToolCallIds (addToolCallPlain tc m)) :
    i ∈ msgToolCallIds m ∨ i = tc.id := by
  cases m with
  | ai idm c tcs =>
    cases tcs with
    | none =>
      simp [addToolCallPlain, msgToolCallIds] at hi
      exact Or.inr hi
    | some tcs0 =>
      simp only [addToolCallPlain, msgToolCallIds, Option.getD, List.map_append,
        List.mem_append, List.map_cons, List.map_nil, List.mem_singleton] at hi
      rcases hi with hi | hi
      · exact Or.inl (by simp only [msgToolCallIds]; exact hi)
      · exact Or.inr hi
  | human idm c => exact Or.inl hi
  | tool idm c n st tci => exact Or.inl hi
  | err idm c => exact Or.inl hi

theorem stateToolCallIds_update_plain (mid : String) (tc : ToolCall)
    (l : List MessageResponse) :
    ∀ i ∈ stateToolCallIds (updateFirstAi mid (addToolCallPlain tc) l),
      i ∈ stateToolCallIds l ∨ i = tc.id := by
  induction l with
  | nil => intro i hi; exact Or.inl hi
  | cons a rest ih =>
    intro i hi
    simp only [updateFirstAi] at hi
    by_cases ha : isAiWithId mid a = true
    · rw [if_pos ha] at hi
      simp only [stateToolCallIds, List.flatMap_cons, List.mem_append] at hi ⊢
      rcases hi with hi | hi
      · rcases mem_msgToolCallIds_addToolCallPlain tc a i hi with hm | hm
        · exact Or.inl (Or.inl hm)
        · exact Or.inr hm
      · exact Or.inl (Or.inr hi)
    · rw [if_neg ha] at hi
      simp only [stateToolCallIds, List.flatMap_cons, List.mem_append] at hi ⊢
      rcases hi with hi | hi
      · exact Or.inl (Or.inl hi)
      · rcases ih i hi with hm | hm
        · exact Or.inl (Or.inr hm)
        · exact Or.inr hm

theorem addToolCall_dedup_eq_plain_of_fresh (tc : ToolCall) (m : MessageResponse)
    (hfresh : tc.id ∉ msgToolCallIds m) :
    addToolCallDedup tc m = addToolCallPlain tc m := by
  cases m with
  | ai i c tcs =>
    cases tcs with
    | none => rfl
    | some tcs0 =>
      simp only [msgToolCallIds] at hfresh
      have : tcs0.any (fun t => t.id == tc.id) = false := by
        rw [← Bool.not_eq_true]
        intro hc
        exact hfresh ((mem_ids_of_any tcs0 tc.id).mp hc)
      simp [addToolCallDedup, addToolCallPlain, this]
  | human i c => rfl
  | tool i c n st tci => rfl
  | err i c => rfl

theorem updateFirstAi_dedup_eq_plain (mid : String) (tc : ToolCall)
    (l : List MessageResponse) (hfresh : tc.id ∉ stateToolCallIds l) :
    updateFirstAi mid (addToolCallDedup tc) l =
      updateFirstAi mid (addToolCallPlain tc) l := by
  induction l with
  | nil => rfl
  | cons a rest ih =>
    simp only [stateToolCallIds, List.flatMap_cons, List.mem_append, not_or] at hfresh
    simp only [updateFirstAi]
    by_cases ha : isAiWithId mid a = true
    · rw [if_pos ha, if_pos ha,
        addToolCall_dedup_eq_plain_of_fresh tc a hfresh.1]
    · rw [if_neg ha, if_neg ha,
        ih (by simpa [stateToolCallIds] using hfresh.2)]

theorem chunkToolCallIds_cons (c : StreamChunk) (rest : List StreamChunk) :
    chunkToolCallIds (c :: rest) =
      chunkToolCallIds [c] ++ chunkToolCallIds rest := by
  rw [← List.singleton_append, chunkToolCallIds, List.filterMap_append]
  rfl

theorem stateToolCallIds_step_subset (gen : Nat → String) (s : AccState)
    (c : StreamChunk) :
    ∀ i ∈ stateToolCallIds (chunksToMessagesStep gen s c).messages,
      i ∈ stateToolCallIds s.messages ∨ i ∈ chunkToolCallIds [c] := by
  intro i hi
  cases c with
  | token content mi =>
    by_cases hopt : optTruthy s.currentMessageId = true
    · simp only [chunksToMessagesStep, hopt, if_pos] at hi
      rw [stateToolCallIds_update_eq _ _ (msgToolCallIds_setAiContent _)] at hi
      exact Or.inl hi
    · simp only [chunksToMessagesStep, hopt, Bool.false_eq_true, if_neg,
        not_false_eq_true] at hi
      rw [stateToolCallIds_append] at hi
      simp only [msgToolCallIds, List.mem_append] at hi
      rcases hi with hi | hi
      · exact Or.inl hi
      · exact absurd hi (by simp)
  | tool_call toolCall mi =>
    cases toolCall with
    | none => exact Or.inl hi
    | some tc =>
      by_cases hopt : optTruthy s.currentMessageId = true
      · simp only [chunksToMessagesStep, hopt, if_pos] at hi
        rcases stateToolCallIds_update_plain _ tc _ i hi with hm | hm
        · exact Or.inl hm
        · exact Or.inr (by simp [chunkToolCallIds, hm])
      · simp only [chunksToMessagesStep, hopt, Bool.false_eq_true, if_neg,
          not_false_eq_true] at hi
        exact Or.inl hi
  | tool_result toolResult mi =>
    cases toolResult with
    | none => exact Or.inl hi
    | some tr =>
      simp only [chunksToMessagesStep] at hi
      rw [stateToolCallIds_append] at hi
      simp only [msgToolCallIds, List.mem_append] at hi
      rcases hi with hi | hi
      · exact Or.inl hi
      · exact absurd hi (by simp)
  | done => exact Or.inl hi
  | error e =>
    simp only [chunksToMessagesStep] at hi
    rw [stateToolCallIds_append] at hi
    simp only [msgToolCallIds, List.mem_append] at hi
    rcases hi with hi | hi
    · exact Or.inl hi
    · exact absurd hi (by simp)

theorem step_agree_of_fresh (gen : Nat → String) (s : AccState) (c : StreamChunk)
    (hfresh : ∀ i ∈ stateToolCallIds s.messages, i ∉ chunkToolCallIds [c]) :
    processStreamChunk gen s c = chunksToMessagesStep gen s c := by
  cases c with
  | token content mi => rfl
  | tool_call toolCall mi =>
    cases toolCall with
    | none => rfl
    | some tc =>
      by_cases hopt : optTruthy s.currentMessageId = true
      · simp only [processStreamChunk, chunksToMessagesStep, hopt, if_pos]
        rw [updateFirstAi_dedup_eq_plain]
        intro hc
        exact hfresh tc.id hc (by simp [chunkToolCallIds])
      · simp [processStreamChunk, chunksToMessagesStep, hopt]
  | tool_result toolResult mi => rfl
  | done => rfl
  | error e => rfl

theorem fold_hook_svc_agree (gen : Nat → String) (chunks : List StreamChunk) :
    ∀ s : AccState, (chunkToolCallIds chunks).Nodup →
      (∀ i ∈ stateToolCallIds s.messages, i ∉ chunkToolCallIds chunks) →
      List.foldl (processStreamChunk gen) s chunks =
        List.foldl (chunksToMessagesStep gen) s chunks := by
  induction chunks with
  | nil => intro s _ _; rfl
  | cons c rest ih =>
    intro s hnd hdis
    have hdis1 : ∀ i ∈ stateToolCallIds s.messages, i ∉ chunkToolCallIds [c] := by
      intro i hi hc
      exact hdis i hi (by rw [chunkToolCallIds_cons, List.mem_append]; exact Or.inl hc)
    rw [List.foldl_cons, List.foldl_cons, step_agree_of_fresh gen s c hdis1]
    rw [chunkToolCallIds_cons, List.nodup_append] at hnd
    refine ih _ hnd.2.1 ?_
    intro i hi
    rcases stateToolCallIds_step_subset gen s c i hi with hm | hm
    · intro hc
      exact hdis i hm (by rw [chunkToolCallIds_cons, List.mem_append]; exact Or.inr hc)
    · exact fun hc => hnd.2.2 hm hc

/-- C10 (amended): the hook's per-chunk processor and the property-test
transition function produce identical message lists on every decoded
chunk sequence whose delivered `tool_call` ids are pairwise distinct; on
sequences that repeat a `tool_call` id they disagree (the hook
deduplicates, the test transition appends a duplicate entry). -/
theorem c10_accumulators_agree_amended (gen : Nat → String)
    (chunks : List StreamChunk) (h : (chunkToolCallIds chunks).Nodup) :
    (runHookChunks gen chunks).messages = processChunksToMessages gen chunks := by
  rw [runHookChunks, processChunksToMessages,
    fold_hook_svc_agree gen chunks initAccState h]
  intro i hi
  simp [stateToolCallIds, initAccState] at hi

/-- C10 (witness): on the scenario sequence token, tool_call,
tool_result, token — all tool-call ids distinct — the two accumulators
agree. -/
theorem c10_witness :
    (chunkToolCallIds
      [.token (some "Hi") (some "m1"),
       .tool_call (some ⟨"search", "q", "c1"⟩) (some "m1"),
       .tool_result (some ⟨"search", "result"⟩) (some "t1"),
       .token (some "Done") (some "m2")]).Nodup ∧
    (runHookChunks (fun _ => "7")
      [.token (some "Hi") (some "m1"),
       .tool_call (some ⟨"search", "q", "c1"⟩) (some "m1"),
       .tool_result (some ⟨"search", "result"⟩) (some "t1"),
       .token (some "Done") (some "m2")]).messages =
      processChunksToMessages (fun _ => "7")
        [.token (some "Hi") (some "m1"),
         .tool_call (some ⟨"search", "q", "c1"⟩) (some "m1"),
         .tool_result (some ⟨"search", "result"⟩) (some "t1"),
         .token (some "Done") (some "m2")] :=
  ⟨by decide, c10_accumulators_agree_amended (fun _ => "7") _ (by decide)⟩

theorem utf8DecodeLoop_cons_stop (b : Nat) (rest : List Nat)
    (h : (b :: rest).length < utf8Len b) :
    utf8DecodeLoop (b :: rest) = ([], b :: rest) := by
  rw [utf8DecodeLoop, dif_pos h]

theorem utf8DecodeLoop_cons_go (b : Nat) (rest : List Nat)
    (h : ¬ (b :: rest).length < utf8Len b) :
    utf8DecodeLoop (b :: rest) =
      (Char.ofNat (decodeCore ((b :: rest).take (utf8Len b))) ::
          (utf8DecodeLoop ((b :: rest).drop (utf8Len b))).1,
        (utf8DecodeLoop ((b :: rest).drop (utf8Len b))).2) := by
  rw [utf8DecodeLoop, dif_neg h]

theorem decodeLoop_append_aux (k : Nat) :
    ∀ (a b : List Nat), a.length ≤ k →
      utf8DecodeLoop (a ++ b) =
        ((utf8DecodeLoop a).1 ++
            (utf8DecodeLoop ((utf8DecodeLoop a).2 ++ b)).1,
          (utf8DecodeLoop ((utf8DecodeLoop a).2 ++ b)).2) := by
  induction k with
  | zero =>
    intro a b ha
    have : a = [] := List.length_eq_zero.mp (Nat.le_zero.mp ha)
    subst this
    simp [utf8DecodeLoop]
  | succ n ih =>
    intro a b ha
    match a with
    | [] => simp [utf8DecodeLoop]
    | b0 :: rest =>
      by_cases hlt : (b0 :: rest).length < utf8Len b0
      · rw [utf8DecodeLoop_cons_stop b0 rest hlt]
        rfl
      · have hone := utf8Len_pos b0
        have hlen : utf8Len b0 ≤ rest.length + 1 := by
          simp only [List.length_cons] at hlt
          omega
        have hlt' : ¬ (b0 :: (rest ++ b)).length < utf8Len b0 := by
          simp only [List.length_cons, List.length_append]
          omega
        have hcons : (b0 :: rest) ++ b = b0 :: (rest ++ b) := rfl
        rw [hcons, utf8DecodeLoop_cons_go b0 (rest ++ b) hlt',
          utf8DecodeLoop_cons_go b0 rest hlt]
        have htake : (b0 :: (rest ++ b)).take (utf8Len b0) =
            (b0 :: rest).take (utf8Len b0) := by
          rw [show b0 :: (rest ++ b) = (b0 :: rest) ++ b from rfl,
            List.take_append_eq_append_take]
          have : utf8Len b0 - (b0 :: rest).length = 0 := by
            simp only [List.length_cons]; omega
          rw [this]
          simp
        have hdrop : (b0 :: (rest ++ b)).drop (utf8Len b0) =
            (b0 :: rest).drop (utf8Len b0) ++ b := by
          rw [show b0 :: (rest ++ b) = (b0 :: rest) ++ b from rfl,
            List.drop_append_eq_append_drop]
          have : utf8Len b0 - (b0 :: rest).length = 0 := by
            simp only [List.length_cons]; omega
          rw [this]
          simp
        rw [htake, hdrop]
        have hrec := ih ((b0 :: rest).drop (utf8Len b0)) b
          (by
            rw [List.length_drop]
            simp only [List.length_cons] at ha ⊢
            omega)
        rw [hrec]
        simp

theorem decodeLoop_append (a b : List Nat) :
    utf8DecodeLoop (a ++ b) =
      ((utf8DecodeLoop a).1 ++
          (utf8DecodeLoop ((utf8DecodeLoop a).2 ++ b)).1,
        (utf8DecodeLoop ((utf8DecodeLoop a).2 ++ b)).2) :=
  decodeLoop_append_aux a.length a b (Nat.le_refl _)

theorem splitBuf_cons_nl (cs : List Char) :
    splitBuf ('\n' :: cs) = ([] :: (splitBuf cs).1, (splitBuf cs).2) := by
  rw [splitBuf]
  simp

theorem splitBuf_cons_nonl (c : Char) (cs : List Char) (hc : ¬ c = '\n') :
    splitBuf (c :: cs) =
      (match (splitBuf cs).1 with
       | [] => ([], c :: (splitBuf cs).2)
       | l :: ls => ((c :: l) :: ls, (splitBuf cs).2)) := by
  rw [splitBuf]
  simp [hc]

theorem splitBuf_append (x y : List Char) :
    splitBuf (x ++ y) =
      ((splitBuf x).1 ++ (splitBuf ((splitBuf x).2 ++ y)).1,
        (splitBuf ((splitBuf x).2 ++ y)).2) := by
  induction x with
  | nil => simp [splitBuf]
  | cons c cs ih =>
    show splitBuf (c :: (cs ++ y)) = _
    by_cases hc : c = '\n'
    · subst hc
      rw [splitBuf_cons_nl, splitBuf_cons_nl, ih]
      simp
    · rw [splitBuf_cons_nonl c (cs ++ y) hc, splitBuf_cons_nonl c cs hc, ih]
      cases hcs : (splitBuf cs).1 with
      | cons l ls => simp
      | nil =>
        simp only [List.nil_append]
        rw [show (c :: (splitBuf cs).2) ++ y = c :: ((splitBuf cs).2 ++ y) from rfl,
          splitBuf_cons_nonl c ((splitBuf cs).2 ++ y) hc]

theorem feedBytes_append (s : ClientState) (a b : List Nat) :
    feedBytes (feedBytes s a) b = feedBytes s (a ++ b) := by
  obtain ⟨p, buf, lns⟩ := s
  simp only [feedBytes]
  rw [← List.append_assoc p a b, decodeLoop_append (p ++ a) b,
    ← List.append_assoc buf (utf8DecodeLoop (p ++ a)).1
      (utf8DecodeLoop ((utf8DecodeLoop (p ++ a)).2 ++ b)).1,
    splitBuf_append (buf ++ (utf8DecodeLoop (p ++ a)).1)
      (utf8DecodeLoop ((utf8DecodeLoop (p ++ a)).2 ++ b)).1]
  simp [List.append_assoc]

theorem foldl_feedBytes (pieces : List (List Nat)) :
    ∀ s, feedBytes s [] = s →
      List.foldl feedBytes s pieces = feedBytes s pieces.flatten := by
  induction pieces with
  | nil =>
    intro s hs
    rw [List.flatten_nil, List.foldl_nil, hs]
  | cons p ps ih =>
    intro s hs
    rw [List.flatten_cons, List.foldl_cons, ← feedBytes_append]
    apply ih
    rw [feedBytes_append, List.append_nil]

theorem utf8EncodeChar_spec (c : Char) (rest : List Nat) :
    utf8DecodeLoop (utf8EncodeChar c ++ rest) =
      (c :: (utf8DecodeLoop rest).1, (utf8DecodeLoop rest).2) := by
  have hv : c.toNat < 55296 ∨ (57343 < c.toNat ∧ c.toNat < 1114112) := c.valid
  have hofn : Char.ofNat c.toNat = c := Char.ofNat_toNat c
  have hcases : c.toNat < 128 ∨ (128 ≤ c.toNat ∧ c.toNat < 2048) ∨
      (2048 ≤ c.toNat ∧ c.toNat < 65536) ∨
      (65536 ≤ c.toNat ∧ c.toNat < 1114112) := by omega
  rcases hcases with h | h | h | h
  · have henc : utf8EncodeChar c = [c.toNat] := by
      rw [utf8EncodeChar, if_pos h]
    have hlen : utf8Len c.toNat = 1 := by
      rw [utf8Len, if_pos (by omega)]
    rw [henc, show ([c.toNat] ++ rest : List Nat) = c.toNat :: rest from rfl,
      utf8DecodeLoop_cons_go _ _
        (by simp only [hlen, List.length_cons]; omega), hlen]
    have htake : (c.toNat :: rest).take 1 = [c.toNat] := rfl
    have hdrop : (c.toNat :: rest).drop 1 = rest := rfl
    rw [htake, hdrop]
    have hdec : decodeCore [c.toNat] = c.toNat := by
      rw [decodeCore, if_pos h]
    rw [hdec, hofn]
  · have henc : utf8EncodeChar c = [192 + c.toNat / 64, 128 + c.toNat % 64] := by
      rw [utf8EncodeChar, if_neg (by omega), if_pos (by omega)]
    have hlen : utf8Len (192 + c.toNat / 64) = 2 := by
      rw [utf8Len, if_neg (by omega), if_pos (by omega)]
    rw [henc,
      show ([192 + c.toNat / 64, 128 + c.toNat % 64] ++ rest : List Nat) =
        (192 + c.toNat / 64) :: ((128 + c.toNat % 64) :: rest) from rfl,
      utf8DecodeLoop_cons_go _ _
        (by simp only [hlen, List.length_cons]; omega), hlen]
    have htake : ((192 + c.toNat / 64) :: ((128 + c.toNat % 64) :: rest)).take 2 =
        [192 + c.toNat / 64, 128 + c.toNat % 64] := rfl
    have hdrop : ((192 + c.toNat / 64) :: ((128 + c.toNat % 64) :: rest)).drop 2 =
        rest := rfl
    rw [htake, hdrop]
    have hdec : decodeCore [192 + c.toNat / 64, 128 + c.toNat % 64] = c.toNat := by
      rw [decodeCore, if_pos ⟨by omega, by omega, by omega, by omega⟩]
      omega
    rw [hdec, hofn]
  · have henc : utf8EncodeChar c =
        [224 + c.toNat / 4096, 128 + c.toNat / 64 % 64, 128 + c.toNat % 64] := by
      rw [utf8EncodeChar, if_neg (by omega), if_neg (by omega), if_pos (by omega)]
    have hlen : utf8Len (224 + c.toNat / 4096) = 3 := by
      rw [utf8Len, if_neg (by omega), if_neg (by omega), if_pos (by omega)]
    rw [henc,
      show ([224 + c.toNat / 4096, 128 + c.toNat / 64 % 64, 128 + c.toNat % 64] ++
          rest : List Nat) =
        (224 + c.toNat / 4096) :: ((128 + c.toNat / 64 % 64) ::
          ((128 + c.toNat % 64) :: rest)) from rfl,
      utf8DecodeLoop_cons_go _ _
        (by simp only [hlen, List.length_cons]; omega), hlen]
    have htake : ((224 + c.toNat / 4096) :: ((128 + c.toNat / 64 % 64) ::
        ((128 + c.toNat % 64) :: rest))).take 3 =
        [224 + c.toNat / 4096, 128 + c.toNat / 64 % 64, 128 + c.toNat % 64] := rfl
    have hdrop : ((224 + c.toNat / 4096) :: ((128 + c.toNat / 64 % 64) ::
        ((128 + c.toNat % 64) :: rest))).drop 3 = rest := rfl
    rw [htake, hdrop]
    have hdec : decodeCore
        [224 + c.toNat / 4096, 128 + c.toNat / 64 % 64, 128 + c.toNat % 64] =
        c.toNat := by
      rw [decodeCore,
        if_pos ⟨by omega, by omega, by omega, by omega, by omega, by omega⟩]
      omega
    rw [hdec, hofn]
  · have henc : utf8EncodeChar c =
        [240 + c.toNat / 262144, 128 + c.toNat / 4096 % 64,
          128 + c.toNat / 64 % 64, 128 + c.toNat % 64] := by
      rw [utf8EncodeChar, if_neg (by omega), if_neg (by omega), if_neg (by omega)]
    have hlen : utf8Len (240 + c.toNat / 262144) = 4 := by
      rw [utf8Len, if_neg (by omega), if_neg (by omega), if_neg (by omega),
        if_pos (by omega)]
    rw [henc,
      show ([240 + c.toNat / 262144, 128 + c.toNat / 4096 % 64,
          128 + c.toNat / 64 % 64, 128 + c.toNat % 64] ++ rest : List Nat) =
        (240 + c.toNat / 262144) :: ((128 + c.toNat / 4096 % 64) ::
          ((128 + c.toNat / 64 % 64) :: ((128 + c.toNat % 64) :: rest))) from rfl,
      utf8DecodeLoop_cons_go _ _
        (by simp only [hlen, List.length_cons]; omega), hlen]
    have htake : ((240 + c.toNat / 262144) :: ((128 + c.toNat / 4096 % 64) ::
        ((128 + c.toNat / 64 % 64) :: ((128 + c.toNat % 64) :: rest)))).take 4 =
        [240 + c.toNat / 262144, 128 + c.toNat / 4096 % 64,
          128 + c.toNat / 64 % 64, 128 + c.toNat % 64] := rfl
    have hdrop : ((240 + c.toNat / 262144) :: ((128 + c.toNat / 4096 % 64) ::
        ((128 + c.toNat / 64 % 64) :: ((128 + c.toNat % 64) :: rest)))).drop 4 =
        rest := rfl
    rw [htake, hdrop]
    have hdec : decodeCore
        [240 + c.toNat / 262144, 128 + c.toNat / 4096 % 64,
          128 + c.toNat / 64 % 64, 128 + c.toNat % 64] = c.toNat := by
      rw [decodeCore,
        if_pos ⟨by omega, by omega, by omega, by omega, by omega, by omega,
          by omega, by omega⟩]
      omega
    rw [hdec, hofn]

theorem utf8DecodeLoop_encode (s : List Char) :
    utf8DecodeLoop (s.flatMap utf8EncodeChar) = (s, []) := by
  induction s with
  | nil => simp [utf8DecodeLoop]
  | cons c cs ih =>
    rw [List.flatMap_cons, utf8EncodeChar_spec c (cs.flatMap utf8EncodeChar), ih]

theorem feedBytes_init_nil : feedBytes initClientState [] = initClientState := by
  simp [feedBytes, initClientState, utf8DecodeLoop, splitBuf]

theorem splitBuf_no_newline (L : List Char) (h : ∀ c ∈ L, c ≠ '\n') :
    splitBuf (L ++ ['\n', '\n']) = ([L, []], []) := by
  induction L with
  | nil =>
    rw [List.nil_append, splitBuf_cons_nl, splitBuf_cons_nl]
    rfl
  | cons c cs ih =>
    have hc : ¬ c = '\n' := h c (by simp)
    rw [List.cons_append, splitBuf_cons_nonl c _ hc,
      ih (fun x hx => h x (by simp [hx]))]

theorem dataPayload_data (j : String) :
    dataPayload ("data: ".data ++ j.data) =
      if j = "" ∨ j = "\x7b\x7d" then none else some j := by
  have hdata : ("data: ".data ++ j.data) =
      'd' :: 'a' :: 't' :: 'a' :: ':' :: ' ' :: j.data := rfl
  have ht1 : ('d' :: 'a' :: 't' :: 'a' :: ':' :: ' ' :: j.data).take 1 = ['d'] := rfl
  have ht6 : ('d' :: 'a' :: 't' :: 'a' :: ':' :: ' ' :: j.data).take 6 =
      "data: ".data := rfl
  have hd6 : ('d' :: 'a' :: 't' :: 'a' :: ':' :: ' ' :: j.data).drop 6 = j.data := rfl
  rw [hdata, dataPayload, if_neg (by simp), ht1, if_neg (by decide), ht6,
    if_pos rfl, hd6]

/-- C4: feeding the byte sequence of one valid SSE data frame to the
client's read loop in arbitrary contiguous pieces — including pieces that
split inside a multi-byte character — produces exactly the state produced
by feeding the frame whole; in particular the same decoded chunk, an
empty line buffer, and no pending decoder bytes. -/
theorem c4_sse_split_invariance (dec : String → Option StreamChunk) (j : String)
    (pieces : List (List Nat))
    (hsplit : pieces.flatten = utf8Encode ("data: " ++ j ++ "\n\n"))
    (hnl : ∀ ch ∈ j.data, ch ≠ '\n') :
    List.foldl feedBytes initClientState pieces =
      feedBytes initClientState (utf8Encode ("data: " ++ j ++ "\n\n")) ∧
    decodedChunks dec (List.foldl feedBytes initClientState pieces) =
      (if j = "" ∨ j = "\x7b\x7d" then [] else (dec j).toList) ∧
    (List.foldl feedBytes initClientState pieces).buffer = [] ∧
    (List.foldl feedBytes initClientState pieces).pending = [] := by
  have hfold : List.foldl feedBytes initClientState pieces =
      feedBytes initClientState (utf8Encode ("data: " ++ j ++ "\n\n")) := by
    rw [foldl_feedBytes pieces initClientState feedBytes_init_nil, hsplit]
  have hfdata : ("data: " ++ j ++ "\n\n").data =
      ("data: ".data ++ j.data) ++ ['\n', '\n'] := by
    rw [String.data_append, String.data_append]
  have hnlL : ∀ c ∈ ("data: ".data ++ j.data), c ≠ '\n' := by
    intro c hc
    rw [List.mem_append] at hc
    rcases hc with hc | hc
    · intro he
      subst he
      revert hc
      decide
    · exact hnl c hc
  have hwhole : feedBytes initClientState (utf8Encode ("data: " ++ j ++ "\n\n")) =
      ⟨[], [], ["data: ".data ++ j.data, []]⟩ := by
    simp only [feedBytes, initClientState]
    rw [show utf8Encode ("data: " ++ j ++ "\n\n") =
        ((("data: ".data ++ j.data) ++ ['\n', '\n']).flatMap utf8EncodeChar) from by
      rw [utf8Encode, hfdata],
      List.nil_append, utf8DecodeLoop_encode, List.nil_append,
      splitBuf_no_newline _ hnlL]
    rfl
  refine ⟨hfold, ?_, ?_, ?_⟩
  · rw [hfold, hwhole, decodedChunks]
    by_cases hbad : j = "" ∨ j = "\x7b\x7d"
    · rw [if_pos hbad]
      simp [List.filterMap_cons, dataPayload_data j, hbad, dataPayload]
    · rw [if_neg hbad]
      simp only [List.filterMap_cons, dataPayload_data j, if_neg hbad,
        List.filterMap_nil]
      rw [show dataPayload [] = none from rfl]
      cases dec j <;> rfl
  · rw [hfold, hwhole]
  · rw [hfold, hwhole]

/-- C4 (witness): the SSE frame for a payload containing a two-byte
character, split into two pieces at byte 13 — inside that character's
encoding — decodes to the same single chunk as the whole frame. -/
theorem c4_witness :
    ([(utf8Encode ("data: " ++ "\x7b\"a\":\"é\"\x7d" ++ "\n\n")).take 13,
      (utf8Encode ("data: " ++ "\x7b\"a\":\"é\"\x7d" ++ "\n\n")).drop 13].flatten =
      utf8Encode ("data: " ++ "\x7b\"a\":\"é\"\x7d" ++ "\n\n")) ∧
    (∀ ch ∈ ("\x7b\"a\":\"é\"\x7d" : String).data, ch ≠ '\n') ∧
    decodedChunks
      (fun s => if s = "\x7b\"a\":\"é\"\x7d" then some .done else none)
      (List.foldl feedBytes initClientState
        [(utf8Encode ("data: " ++ "\x7b\"a\":\"é\"\x7d" ++ "\n\n")).take 13,
         (utf8Encode ("data: " ++ "\x7b\"a\":\"é\"\x7d" ++ "\n\n")).drop 13]) =
      [.done] := by
  have hs : [(utf8Encode ("data: " ++ "\x7b\"a\":\"é\"\x7d" ++ "\n\n")).take 13,
      (utf8Encode ("data: " ++ "\x7b\"a\":\"é\"\x7d" ++ "\n\n")).drop 13].flatten =
      utf8Encode ("data: " ++ "\x7b\"a\":\"é\"\x7d" ++ "\n\n") := by
    rw [List.flatten_cons, List.flatten_cons, List.flatten_nil, List.append_nil,
      List.take_append_drop]
  have hn : ∀ ch ∈ ("\x7b\"a\":\"é\"\x7d" : String).data, ch ≠ '\n' := by decide
  refine ⟨hs, hn, ?_⟩
  rw [(c4_sse_split_invariance
    (fun s => if s = "\x7b\"a\":\"é\"\x7d" then some .done else none)
    "\x7b\"a\":\"é\"\x7d"
    [(utf8Encode ("data: " ++ "\x7b\"a\":\"é\"\x7d" ++ "\n\n")).take 13,
     (utf8Encode ("data: " ++ "\x7b\"a\":\"é\"\x7d" ++ "\n\n")).drop 13]
    hs hn).2.1]
  decide

end Spec2Proof
